import Mathlib

/-!
# Verification of the HackBeanpot-2026 curved-mirror pipeline

Shallow embedding of the numerically meaningful core of the repository:

* `bezierToPolynomial` (src/src/RayTracedMirror.jsx) — quadratic Bezier to
  per-segment polynomial coefficients, over exact rationals;
* `pointsToQuadraticBeziers` (src/src/AsymmetricMirrorBezier.jsx) — the
  designer's anchor-points-to-quadratic-Bezier construction;
* `convertBezierCurvesToSegments` (src/src/AsymmetricMirrorBezier.jsx,
  MirrorViewport portion) — canvas-pixel Beziers to physical profile segments;
* the cubic-to-quadratic adaptive approximator
  (src/src/splineToQuadraticBezier.js), over the reals with a fuel-indexed
  worklist loop mirroring the source's explicit stack;
* the per-segment quadratic intersection, Ferrari quartic solver, paraboloid
  fast path and the shading tail of the fragment shaders
  (src/frontend/src/shaders/square_mirror_fragment_asym.glsl and the
  revolution-profile shader), over the reals with `Real.sqrt`.

JavaScript / GLSL floating-point numbers are modelled as exact rationals
(ℚ) where the source only adds, subtracts, multiplies and divides, and as
real numbers (ℝ) where the source calls `sqrt`, `pow`, `cos` or `acos`.
-/

/-! ## Data model: 2D points and quadratic Beziers (rational layer) -/

/-- A 2D point with rational coordinates (canvas space of the designer). -/
structure Pt where
  x : ℚ
  y : ℚ
deriving DecidableEq, Repr

instance : Inhabited Pt := ⟨⟨0, 0⟩⟩

/-- A quadratic Bezier `{start, cp, end}` as produced by the designer.
(`endp` stands for the source's `end` field, a reserved word in Lean.) -/
structure QuadBez where
  start : Pt
  cp : Pt
  endp : Pt
deriving DecidableEq, Repr

instance : Inhabited QuadBez := ⟨⟨default, default, default⟩⟩

/-! ## Bezier-to-polynomial converter (src/src/RayTracedMirror.jsx,
`bezierToPolynomial`) -/

/-- Output of `bezierToPolynomial`: coefficients of `z(y) = a y² + b y + c`
plus the domain start `yMin` (the source returns `{a, b, c, yMin}`). -/
structure PolySeg where
  a : ℚ
  b : ℚ
  c : ℚ
  yMin : ℚ
deriving DecidableEq, Repr

/-- `bezierToPolynomial(yMin, yMax, z0, z1, z2)` from
src/src/RayTracedMirror.jsx lines 153-176: converts the depth values
`z0, z1, z2` of a quadratic Bezier parameterized by
`t = (y - yMin)/(yMax - yMin)` into polynomial coefficients in `y`-space. -/
def bezierToPolynomial (yMin yMax z0 z1 z2 : ℚ) : PolySeg :=
  let yRange := yMax - yMin
  if yRange = 0 then
    ⟨0, 0, z0, yMin⟩
  else
    let a_t := z0 - 2 * z1 + z2
    let b_t := 2 * (z1 - z0)
    let c_t := z0
    let a := a_t / (yRange * yRange)
    let b := b_t / yRange - 2 * a_t * yMin / (yRange * yRange)
    let c := c_t + a_t * yMin * yMin / (yRange * yRange) - b_t * yMin / yRange
    ⟨a, b, c, yMin⟩

/-- Evaluate the polynomial `z(y) = a y² + b y + c` of a segment. -/
def PolySeg.eval (s : PolySeg) (y : ℚ) : ℚ :=
  s.a * y ^ 2 + s.b * y + s.c

/-! ## Theorems for claim C1 -/

/-- C1. Bezier-to-polynomial reconstruction: for `yMin < yMax` the
coefficients produced by `bezierToPolynomial` reproduce `z0` at `y = yMin`,
`z2` at `y = yMax`, and the Bezier's exact `t = 0.5` depth
`(z0 + 2 z1 + z2)/4` at the domain midpoint `(yMin + yMax)/2` — here with
exact rational arithmetic, hence certainly within any floating-point
tolerance. -/
theorem bezierToPolynomial_reconstruction (yMin yMax z0 z1 z2 : ℚ)
    (h : yMin < yMax) :
    (bezierToPolynomial yMin yMax z0 z1 z2).eval yMin = z0 ∧
    (bezierToPolynomial yMin yMax z0 z1 z2).eval yMax = z2 ∧
    (bezierToPolynomial yMin yMax z0 z1 z2).eval ((yMin + yMax) / 2) =
      (z0 + 2 * z1 + z2) / 4 := by
  have hne : yMax - yMin ≠ 0 := sub_ne_zero.mpr (ne_of_gt h)
  unfold bezierToPolynomial PolySeg.eval
  rw [if_neg hne]
  refine ⟨?_, ?_, ?_⟩ <;> field_simp <;> ring

/-- Witness for C1 at `yMin = 0, yMax = 1, z0 = 1, z1 = 2, z2 = 3`. -/
theorem bezierToPolynomial_reconstruction_witness :
    (0 : ℚ) < 1 ∧
    ((bezierToPolynomial 0 1 1 2 3).eval 0 = 1 ∧
     (bezierToPolynomial 0 1 1 2 3).eval 1 = 3 ∧
     (bezierToPolynomial 0 1 1 2 3).eval ((0 + 1) / 2) = (1 + 2 * 2 + 3) / 4) :=
  ⟨by norm_num, bezierToPolynomial_reconstruction 0 1 1 2 3 (by norm_num)⟩

/-! ## Designer curve construction (src/src/AsymmetricMirrorBezier.jsx,
`pointsToQuadraticBeziers`, lines 10-107) -/

/-- Midpoint of two points (the designer's junction construction). -/
def midpointPt (p q : Pt) : Pt :=
  ⟨(p.x + q.x) / 2, (p.y + q.y) / 2⟩

/-- The loop body of `pointsToQuadraticBeziers` for indices `i = 1 .. n-1`:
given `prevPt = userPoints[i-1]` and `userPt = userPoints[i]`, with `rest`
the remaining user points, emit the two curves of the S-curve pair and
recurse.  `junctionAfter` is the midpoint to the next point, or the bottom
anchor `(lineX, lineBottom)` for the last point. -/
def sCurvePairs (lineX lineBottom : ℚ) : Pt → Pt → List Pt → List QuadBez
  | prevPt, userPt, rest =>
    let junctionBefore := midpointPt prevPt userPt
    let junctionAfter :=
      match rest with
      | nextPt :: _ => midpointPt userPt nextPt
      | [] => (⟨lineX, lineBottom⟩ : Pt)
    -- First curve: junction -> user point, cp biased 0.67 toward the point
    let dx1 := userPt.x - junctionBefore.x
    let dy1 := userPt.y - junctionBefore.y
    let cp1 : Pt := ⟨junctionBefore.x + dx1 * (67/100), junctionBefore.y + dy1 * (67/100)⟩
    -- Second curve: user point -> junction, cp biased 0.67 toward the junction
    let dx2 := junctionAfter.x - userPt.x
    let dy2 := junctionAfter.y - userPt.y
    let cp2 : Pt := ⟨userPt.x + dx2 * (67/100), userPt.y + dy2 * (67/100)⟩
    ⟨junctionBefore, cp1, userPt⟩ ::
    ⟨userPt, cp2, junctionAfter⟩ ::
    (match rest with
     | nextPt :: rest' => sCurvePairs lineX lineBottom userPt nextPt rest'
     | [] => [])

/-- `pointsToQuadraticBeziers(anchorPoints, userPoints)` from
src/src/AsymmetricMirrorBezier.jsx: converts user pass-through points to
quadratic Beziers.  `anchorPoints` supplies `LINE_X = anchorPoints[0].x`,
`LINE_TOP = anchorPoints[0].y` and `LINE_BOTTOM = anchorPoints[last].y`. -/
def pointsToQuadraticBeziers (anchorPoints userPoints : List Pt) : List QuadBez :=
  let lineX := anchorPoints.headI.x
  let lineTop := anchorPoints.headI.y
  let lineBottom := anchorPoints.getLastI.y
  match userPoints with
  | [] =>
    [⟨⟨lineX, lineTop⟩, ⟨lineX, (lineTop + lineBottom) / 2⟩, ⟨lineX, lineBottom⟩⟩]
  | [userPt] =>
    let cpx := 2 * userPt.x - (1/2) * (lineX + lineX)
    let cpy := 2 * userPt.y - (1/2) * (lineTop + lineBottom)
    [⟨⟨lineX, lineTop⟩, ⟨cpx, cpy⟩, ⟨lineX, lineBottom⟩⟩]
  | firstPt :: secondPt :: rest =>
    -- n > 1 here, so junctionAfterFirst is the midpoint to the second point
    let junctionAfterFirst := midpointPt firstPt secondPt
    let cp0x := 2 * firstPt.x - (1/2) * (lineX + junctionAfterFirst.x)
    let cp0y := 2 * firstPt.y - (1/2) * (lineTop + junctionAfterFirst.y)
    ⟨⟨lineX, lineTop⟩, ⟨cp0x, cp0y⟩, junctionAfterFirst⟩ ::
    sCurvePairs lineX lineBottom firstPt secondPt rest

/-! ## Theorems for claim C4

The spec (and the source's own comment at
src/src/AsymmetricMirrorBezier.jsx lines 89-93: "So: cp2 = 2*userPt - cp1
(reflection across userPt)") require the control point of the arc starting
at an anchor to be the reflection of the control point of the arc ending at
it.  The code instead computes `cp2 = userPt + 0.67 (junctionAfter -
userPt)`, which is not that reflection; the claim fails on a concrete
accepted anchor configuration. -/

/-- C4. At the designer's own constants (`LINE_X = 400`, `LINE_TOP = 50`,
`LINE_BOTTOM = 550`) with the two accepted user points `(300, 150)` and
`(500, 400)`, the second user point emits two arcs (`beziers[1]` ending at
it and `beziers[2]` starting at it), but the control point of the arc after
the anchor is `(433, 500.5)` whereas the reflection `2·anchor − cp_before`
is `(533, 441.25)`: the C1-mirroring property of the claim (and of the
code's own comment) does not hold. -/
theorem sCurve_control_point_not_mirrored :
    (pointsToQuadraticBeziers [⟨400, 50⟩, ⟨400, 550⟩] [⟨300, 150⟩, ⟨500, 400⟩]).length = 3 ∧
    ((pointsToQuadraticBeziers [⟨400, 50⟩, ⟨400, 550⟩] [⟨300, 150⟩, ⟨500, 400⟩]).getD 1 default).endp
      = ⟨500, 400⟩ ∧
    ((pointsToQuadraticBeziers [⟨400, 50⟩, ⟨400, 550⟩] [⟨300, 150⟩, ⟨500, 400⟩]).getD 2 default).start
      = ⟨500, 400⟩ ∧
    ((pointsToQuadraticBeziers [⟨400, 50⟩, ⟨400, 550⟩] [⟨300, 150⟩, ⟨500, 400⟩]).getD 2 default).cp
      = ⟨433, 1001/2⟩ ∧
    ((pointsToQuadraticBeziers [⟨400, 50⟩, ⟨400, 550⟩] [⟨300, 150⟩, ⟨500, 400⟩]).getD 2 default).cp
      ≠ ⟨2 * 500 - (((pointsToQuadraticBeziers [⟨400, 50⟩, ⟨400, 550⟩] [⟨300, 150⟩, ⟨500, 400⟩]).getD 1 default).cp).x,
         2 * 400 - (((pointsToQuadraticBeziers [⟨400, 50⟩, ⟨400, 550⟩] [⟨300, 150⟩, ⟨500, 400⟩]).getD 1 default).cp).y⟩ := by
  simp only [pointsToQuadraticBeziers, sCurvePairs, midpointPt, List.headI, List.getLastI,
    List.getLast, List.getD_cons_zero, List.getD_cons_succ, List.length_cons, List.length_nil]
  norm_num [Pt.mk.injEq]

/-! ## Bezier-to-segment converter (src/src/AsymmetricMirrorBezier.jsx,
MirrorViewport portion, `convertBezierCurvesToSegments`, lines 512-566) -/

/-- A raytracer curve segment `{yMin, yMax, z0, z1, z2}` in physical
coordinates, as consumed by RayTracedMirror. -/
structure CurveSeg where
  yMin : ℚ
  yMax : ℚ
  z0 : ℚ
  z1 : ℚ
  z2 : ℚ
deriving DecidableEq, Repr

/-- Designer canvas bounds `{x, yTop, yBottom}` exported with the curve. -/
structure Bounds where
  x : ℚ
  yTop : ℚ
  yBottom : ℚ
deriving DecidableEq, Repr

/-- `physicalHalfHeight = 2.0` in `convertBezierCurvesToSegments`. -/
def physicalHalfHeight : ℚ := 2

/-- `physicalMaxDepth = 1.0` in `convertBezierCurvesToSegments`. -/
def physicalMaxDepth : ℚ := 1

/-- Canvas-pixel `y` to physical `y`:
`((y - yTop) / canvasHeight) * (2*physicalHalfHeight) - physicalHalfHeight`. -/
def physY (bounds : Bounds) (y : ℚ) : ℚ :=
  ((y - bounds.yTop) / (bounds.yBottom - bounds.yTop)) * (2 * physicalHalfHeight)
    - physicalHalfHeight

/-- Canvas-pixel `x` to physical depth:
`-((bounds.x - x) / canvasWidth * physicalMaxDepth)` with `canvasWidth = bounds.x`. -/
def physDepth (bounds : Bounds) (x : ℚ) : ℚ :=
  -((bounds.x - x) / bounds.x * physicalMaxDepth)

/-- The per-Bezier conversion inside `convertBezierCurvesToSegments`. -/
def bezierToCurveSeg (bounds : Bounds) (bezier : QuadBez) : CurveSeg :=
  let yStartPhysical := physY bounds bezier.start.y
  let yEndPhysical := physY bounds bezier.endp.y
  { yMin := min yStartPhysical yEndPhysical
    yMax := max yStartPhysical yEndPhysical
    z0 := physDepth bounds bezier.start.x
    z1 := physDepth bounds bezier.cp.x
    z2 := physDepth bounds bezier.endp.x }

/-- `convertBezierCurvesToSegments(curveData)` from
src/src/AsymmetricMirrorBezier.jsx (MirrorViewport portion): with no Bezier
data it falls back to a default flat segment, otherwise it maps each
quadratic Bezier to a physical curve segment. -/
def convertBezierCurvesToSegments (quadraticBeziers : List QuadBez) (bounds : Bounds) :
    List CurveSeg :=
  match quadraticBeziers with
  | [] => [⟨-(2/5), 2/5, 0, 0, 0⟩]
  | bs => bs.map (bezierToCurveSeg bounds)

/-! ## Helper lemmas about the designer's Bezier chain -/

/-- Transfer a chain property using per-element facts. -/
theorem chain_of_mem_chain {α : Type} {R S : α → α → Prop} {P : α → Prop} :
    ∀ (l : List α), List.Chain' R l → (∀ x ∈ l, P x) →
      (∀ a b, P a → P b → R a b → S a b) → List.Chain' S l
  | [], _, _, _ => List.chain'_nil
  | [_], _, _, _ => List.chain'_singleton _
  | a :: b :: l, hc, hp, himp => by
    rw [List.chain'_cons] at hc ⊢
    exact ⟨himp a b (hp a (by simp)) (hp b (by simp)) hc.1,
      chain_of_mem_chain (b :: l) hc.2 (fun x hx => hp x (List.mem_cons_of_mem a hx)) himp⟩

/-- Unfolding equation for `sCurvePairs` on a non-final point. -/
theorem sCurvePairs_cons (lineX bottom : ℚ) (prevPt userPt nextPt : Pt) (rest' : List Pt) :
    sCurvePairs lineX bottom prevPt userPt (nextPt :: rest') =
      ⟨midpointPt prevPt userPt,
        ⟨(midpointPt prevPt userPt).x + (userPt.x - (midpointPt prevPt userPt).x) * (67/100),
         (midpointPt prevPt userPt).y + (userPt.y - (midpointPt prevPt userPt).y) * (67/100)⟩,
        userPt⟩ ::
      ⟨userPt,
        ⟨userPt.x + ((midpointPt userPt nextPt).x - userPt.x) * (67/100),
         userPt.y + ((midpointPt userPt nextPt).y - userPt.y) * (67/100)⟩,
        midpointPt userPt nextPt⟩ ::
      sCurvePairs lineX bottom userPt nextPt rest' := by
  simp [sCurvePairs]

/-- Structural facts about `sCurvePairs`: the emitted list is nonempty,
starts at the junction before the current point, ends at the bottom anchor,
is endpoint-contiguous, and is monotone in `y` provided the points are. -/
theorem sCurvePairs_spec (lineX bottom : ℚ) :
    ∀ (rest : List Pt) (prevPt userPt : Pt),
      prevPt.y ≤ userPt.y →
      List.Chain' (fun p q => p.y ≤ q.y) (userPt :: rest) →
      (∀ p ∈ userPt :: rest, p.y ≤ bottom) →
      sCurvePairs lineX bottom prevPt userPt rest ≠ [] ∧
      (sCurvePairs lineX bottom prevPt userPt rest).headI.start = midpointPt prevPt userPt ∧
      (sCurvePairs lineX bottom prevPt userPt rest).getLastI.endp = ⟨lineX, bottom⟩ ∧
      List.Chain' (fun b1 b2 => b1.endp = b2.start)
        (sCurvePairs lineX bottom prevPt userPt rest) ∧
      ∀ b ∈ sCurvePairs lineX bottom prevPt userPt rest, b.start.y ≤ b.endp.y := by
  intro rest
  induction rest with
  | nil =>
    intro prevPt userPt hprev _ hbot
    have hub : userPt.y ≤ bottom := hbot userPt (by simp)
    refine ⟨by simp [sCurvePairs], by simp [sCurvePairs], by simp [sCurvePairs, List.getLastI],
      ?_, ?_⟩
    · simp [sCurvePairs, List.chain'_cons, List.chain'_singleton]
    · intro b hb
      simp only [sCurvePairs, List.mem_cons, List.not_mem_nil, or_false] at hb
      rcases hb with hb | hb <;> subst hb <;> simp [midpointPt] <;> linarith
  | cons nextPt rest' ih =>
    intro prevPt userPt hprev hchain hbot
    have hun : userPt.y ≤ nextPt.y := (List.chain'_cons.mp hchain).1
    have hchain' : List.Chain' (fun p q => p.y ≤ q.y) (nextPt :: rest') :=
      (List.chain'_cons.mp hchain).2
    have hbot' : ∀ p ∈ nextPt :: rest', p.y ≤ bottom :=
      fun p hp => hbot p (List.mem_cons_of_mem userPt hp)
    obtain ⟨hne, hhead, hlast, hchainB, hmono⟩ := ih userPt nextPt hun hchain' hbot'
    constructor
    · simp [sCurvePairs]
    constructor
    · simp [sCurvePairs]
    constructor
    · -- last of the extended list is the last of the recursive call
      rw [sCurvePairs_cons]
      rcases List.exists_cons_of_ne_nil hne with ⟨b0, tl, htl⟩
      rw [htl] at hlast ⊢
      simpa [List.getLastI_eq_getLast?, List.getLast?_cons] using hlast
    constructor
    · rw [sCurvePairs_cons]
      rw [List.chain'_cons]
      refine ⟨rfl, ?_⟩
      rcases List.exists_cons_of_ne_nil hne with ⟨b0, tl, htl⟩
      rw [htl]
      rw [List.chain'_cons]
      refine ⟨?_, by rw [← htl]; exact hchainB⟩
      have : b0.start = midpointPt userPt nextPt := by
        rw [htl] at hhead; simpa using hhead
      simp [this]
    · intro b hb
      rw [sCurvePairs_cons] at hb
      simp only [List.mem_cons] at hb
      rcases hb with hb | hb | hb
      · subst hb; simp [midpointPt]; linarith
      · subst hb; simp [midpointPt]; linarith
      · exact hmono b hb

/-- `headI` commutes with `map` on a nonempty list. -/
theorem headI_map_of_ne_nil {α β : Type} [Inhabited α] [Inhabited β] (f : α → β) :
    ∀ (l : List α), l ≠ [] → (l.map f).headI = f l.headI
  | [], h => absurd rfl h
  | _ :: _, _ => rfl

/-- `getLastI` commutes with `map` on a nonempty list. -/
theorem getLastI_map_of_ne_nil {α β : Type} [Inhabited α] [Inhabited β] (f : α → β) :
    ∀ (l : List α), l ≠ [] → (l.map f).getLastI = f l.getLastI
  | [], h => absurd rfl h
  | [a], _ => rfl
  | a :: b :: t, _ => by
    have ih := getLastI_map_of_ne_nil f (b :: t) (by simp)
    simp only [List.map_cons] at ih ⊢
    simp only [List.getLastI_eq_getLast?, List.getLast?_cons] at ih ⊢
    exact ih

/-- Structural facts about the full designer output: the Bezier list is
nonempty, runs from the top anchor to the bottom anchor, is
endpoint-contiguous, and each Bezier is monotone in `y` whenever the user
points are sorted in `y` and lie between the anchors. -/
theorem pointsToQuadraticBeziers_spec (lineX top bottom : ℚ) (users : List Pt)
    (htb : top ≤ bottom)
    (hchain : List.Chain' (fun p q => p.y ≤ q.y) users)
    (hmem : ∀ p ∈ users, top ≤ p.y ∧ p.y ≤ bottom) :
    pointsToQuadraticBeziers [⟨lineX, top⟩, ⟨lineX, bottom⟩] users ≠ [] ∧
    (pointsToQuadraticBeziers [⟨lineX, top⟩, ⟨lineX, bottom⟩] users).headI.start
      = ⟨lineX, top⟩ ∧
    (pointsToQuadraticBeziers [⟨lineX, top⟩, ⟨lineX, bottom⟩] users).getLastI.endp
      = ⟨lineX, bottom⟩ ∧
    List.Chain' (fun b1 b2 => b1.endp = b2.start)
      (pointsToQuadraticBeziers [⟨lineX, top⟩, ⟨lineX, bottom⟩] users) ∧
    ∀ b ∈ pointsToQuadraticBeziers [⟨lineX, top⟩, ⟨lineX, bottom⟩] users,
      b.start.y ≤ b.endp.y := by
  match users with
  | [] =>
    refine ⟨by simp [pointsToQuadraticBeziers], by simp [pointsToQuadraticBeziers], ?_, ?_, ?_⟩
    · simp [pointsToQuadraticBeziers, List.getLastI]
    · simp [pointsToQuadraticBeziers]
    · intro b hb
      simp only [pointsToQuadraticBeziers, List.headI, List.getLastI, List.mem_singleton] at hb
      subst hb; simpa using htb
  | [u] =>
    refine ⟨by simp [pointsToQuadraticBeziers], by simp [pointsToQuadraticBeziers], ?_, ?_, ?_⟩
    · simp [pointsToQuadraticBeziers, List.getLastI]
    · simp [pointsToQuadraticBeziers]
    · intro b hb
      simp only [pointsToQuadraticBeziers, List.headI, List.getLastI, List.mem_singleton] at hb
      subst hb; simpa using htb
  | u0 :: u1 :: rest =>
    have h01 : u0.y ≤ u1.y := (List.chain'_cons.mp hchain).1
    have hchain1 : List.Chain' (fun p q => p.y ≤ q.y) (u1 :: rest) :=
      (List.chain'_cons.mp hchain).2
    have hbot1 : ∀ p ∈ u1 :: rest, p.y ≤ bottom :=
      fun p hp => (hmem p (List.mem_cons_of_mem u0 hp)).2
    obtain ⟨hne, hhead, hlast, hchainB, hmono⟩ :=
      sCurvePairs_spec lineX bottom rest u0 u1 h01 hchain1 hbot1
    have hu0 : top ≤ u0.y := (hmem u0 (by simp)).1
    have hu1 : top ≤ u1.y := (hmem u1 (by simp)).1
    have hexp : pointsToQuadraticBeziers [⟨lineX, top⟩, ⟨lineX, bottom⟩] (u0 :: u1 :: rest) =
        ⟨⟨lineX, top⟩,
          ⟨2 * u0.x - (1/2) * (lineX + (midpointPt u0 u1).x),
           2 * u0.y - (1/2) * (top + (midpointPt u0 u1).y)⟩,
          midpointPt u0 u1⟩ ::
        sCurvePairs lineX bottom u0 u1 rest := by
      simp [pointsToQuadraticBeziers, List.getLastI]
    rw [hexp]
    refine ⟨by simp, by simp, ?_, ?_, ?_⟩
    · rcases List.exists_cons_of_ne_nil hne with ⟨b0, tl, htl⟩
      rw [htl] at hlast ⊢
      simpa [List.getLastI_eq_getLast?, List.getLast?_cons] using hlast
    · rw [List.chain'_cons']
      refine ⟨?_, hchainB⟩
      intro b2 hb2
      rcases List.exists_cons_of_ne_nil hne with ⟨b0, tl, htl⟩
      rw [htl] at hb2 hhead
      simp only [List.head?_cons, Option.mem_def, Option.some.injEq] at hb2
      subst hb2
      simpa using hhead.symm
    · intro b hb
      rcases List.mem_cons.mp hb with hb | hb
      · subst hb
        simp only [midpointPt]
        show top ≤ (u0.y + u1.y) / 2
        linarith
      · exact hmono b hb


instance : Inhabited CurveSeg := ⟨⟨0, 0, 0, 0, 0⟩⟩

/-- `physY` is monotone on a properly ordered canvas (`yTop < yBottom`). -/
theorem physY_mono (bounds : Bounds) (h : bounds.yTop < bounds.yBottom)
    {y1 y2 : ℚ} (hy : y1 ≤ y2) : physY bounds y1 ≤ physY bounds y2 := by
  unfold physY physicalHalfHeight
  have hpos : 0 < bounds.yBottom - bounds.yTop := by linarith
  have h2 : (y1 - bounds.yTop) / (bounds.yBottom - bounds.yTop) ≤
      (y2 - bounds.yTop) / (bounds.yBottom - bounds.yTop) :=
    (div_le_div_iff_of_pos_right hpos).mpr (by linarith)
  linarith

/-! ## Theorems for claim C5 -/

/-- C5. Segment partition invariant: for any user-point list accepted by the
designer (points sorted by `y` between the two anchors) and a proper canvas
(`top < bottom`), the exported physical segments satisfy
`segments[i].yMax = segments[i+1].yMin` for all consecutive `i`, the first
segment starts at `-physicalHalfHeight = -2` and the last ends at
`+physicalHalfHeight = +2` — the configured half-height bounds
(`mirrorHalfHeight = 2.0` in MirrorViewport). -/
theorem convertBezierCurvesToSegments_partition (lineX top bottom : ℚ) (users : List Pt)
    (htb : top < bottom)
    (hchain : List.Chain' (fun p q => p.y ≤ q.y) users)
    (hmem : ∀ p ∈ users, top ≤ p.y ∧ p.y ≤ bottom) :
    ∀ segs, segs = convertBezierCurvesToSegments
        (pointsToQuadraticBeziers [⟨lineX, top⟩, ⟨lineX, bottom⟩] users)
        ⟨lineX, top, bottom⟩ →
      (∀ (i : ℕ) (h : i + 1 < segs.length),
        (segs.get ⟨i, by omega⟩).yMax = (segs.get ⟨i + 1, h⟩).yMin) ∧
      segs.headI.yMin = -physicalHalfHeight ∧
      segs.getLastI.yMax = physicalHalfHeight := by
  intro segs hsegs
  obtain ⟨hne, hhead, hlast, hchainB, hmono⟩ :=
    pointsToQuadraticBeziers_spec lineX top bottom users (le_of_lt htb) hchain hmem
  set bz := pointsToQuadraticBeziers [⟨lineX, top⟩, ⟨lineX, bottom⟩] users with hbz
  set bounds : Bounds := ⟨lineX, top, bottom⟩ with hbounds
  have hbt : bounds.yTop < bounds.yBottom := htb
  -- with a nonempty Bezier list the converter is the plain map
  have hconv : segs = bz.map (bezierToCurveSeg bounds) := by
    rw [hsegs]
    rcases bz with _ | ⟨b0, tl⟩
    · exact absurd rfl hne
    · rfl
  have hymax : ∀ b ∈ bz, (bezierToCurveSeg bounds b).yMax = physY bounds b.endp.y := by
    intro b hb
    have hm : physY bounds b.start.y ≤ physY bounds b.endp.y :=
      physY_mono bounds hbt (hmono b hb)
    simp only [bezierToCurveSeg]
    exact max_eq_right hm
  have hymin : ∀ b ∈ bz, (bezierToCurveSeg bounds b).yMin = physY bounds b.start.y := by
    intro b hb
    have hm : physY bounds b.start.y ≤ physY bounds b.endp.y :=
      physY_mono bounds hbt (hmono b hb)
    simp only [bezierToCurveSeg]
    exact min_eq_left hm
  have hmemhead : bz.headI ∈ bz := by
    rcases bz with _ | ⟨b0, tl⟩
    · exact absurd rfl hne
    · exact List.mem_cons_self _ _
  have hmemlast : bz.getLastI ∈ bz := by
    rcases bz with _ | ⟨b0, tl⟩
    · exact absurd rfl hne
    · rw [List.getLastI_eq_getLast?, List.getLast?_eq_getLast (b0 :: tl) (by simp)]
      exact List.getLast_mem _
  refine ⟨?_, ?_, ?_⟩
  · -- consecutive yMax = yMin
    have hchainS : List.Chain' (fun s1 s2 => s1.yMax = s2.yMin) segs := by
      rw [hconv, List.chain'_map]
      -- strengthen the Bezier chain with membership via pairwise transfer
      have hstep : ∀ a b, a ∈ bz → b ∈ bz → a.endp = b.start →
          (bezierToCurveSeg bounds a).yMax = (bezierToCurveSeg bounds b).yMin := by
        intro a b ha hb hab
        rw [hymax a ha, hymin b hb, hab]
      -- chain with membership: re-prove by recursion over the chain
      clear hconv hsegs hhead hlast hmemhead hmemlast hymax hymin
      revert hchainB hmono hstep
      generalize bz = l
      intro hchainB hmono hstep
      induction l with
      | nil => exact List.chain'_nil
      | cons a tl ihl =>
        cases tl with
        | nil => exact List.chain'_singleton _
        | cons b tl' =>
          rw [List.chain'_cons] at hchainB ⊢
          refine ⟨hstep a b (by simp) (by simp) hchainB.1, ?_⟩
          exact ihl hchainB.2 (fun x hx => hmono x (List.mem_cons_of_mem a hx))
            (fun x y hx hy => hstep x y (List.mem_cons_of_mem a hx) (List.mem_cons_of_mem a hy))
    intro i h
    exact List.chain'_iff_get.mp hchainS i (by omega)
  · -- first segment starts at -physicalHalfHeight
    rw [hconv, headI_map_of_ne_nil _ bz hne, hymin bz.headI hmemhead, hhead]
    show physY bounds top = -physicalHalfHeight
    unfold physY physicalHalfHeight
    rw [hbounds]
    norm_num
  · -- last segment ends at +physicalHalfHeight
    rw [hconv, getLastI_map_of_ne_nil _ bz hne, hymax bz.getLastI hmemlast, hlast]
    show physY bounds bottom = physicalHalfHeight
    unfold physY physicalHalfHeight
    rw [hbounds]
    have : bottom - top ≠ 0 := by intro h0; rw [hbounds] at hbt; simp at hbt; linarith
    field_simp
    norm_num

/-- Witness for C5: one accepted user point `(300, 150)` on the designer's
canvas (`LINE_X = 400`, `LINE_TOP = 50`, `LINE_BOTTOM = 550`). -/
theorem convertBezierCurvesToSegments_partition_witness :
    (50 : ℚ) < 550 ∧
    (convertBezierCurvesToSegments
        (pointsToQuadraticBeziers [⟨400, 50⟩, ⟨400, 550⟩] [⟨300, 150⟩])
        ⟨400, 50, 550⟩).headI.yMin = -physicalHalfHeight ∧
    (convertBezierCurvesToSegments
        (pointsToQuadraticBeziers [⟨400, 50⟩, ⟨400, 550⟩] [⟨300, 150⟩])
        ⟨400, 50, 550⟩).getLastI.yMax = physicalHalfHeight := by
  have h := convertBezierCurvesToSegments_partition 400 50 550 [⟨300, 150⟩]
    (by norm_num) (List.chain'_singleton _)
    (by intro p hp; simp only [List.mem_singleton] at hp; subst hp; norm_num)
    _ rfl
  exact ⟨by norm_num, h.2.1, h.2.2⟩

/-! ## Cubic-to-quadratic adaptive approximator
(src/src/splineToQuadraticBezier.js) — modelled over the reals, since the
error metric uses `Math.sqrt`. -/

/-- A 2D point with real coordinates (spline/approximator layer). -/
structure PtR where
  x : ℝ
  y : ℝ

/-- A cubic Bezier `{start, cp1, cp2, end}`. -/
structure CubicBez where
  start : PtR
  cp1 : PtR
  cp2 : PtR
  endp : PtR

/-- A quadratic Bezier `{start, cp, end}` over the reals. -/
structure QuadBezR where
  start : PtR
  cp : PtR
  endp : PtR

/-- `evaluateCubicBezier(cubic, t)` from splineToQuadraticBezier.js. -/
noncomputable def evaluateCubicBezier (cubic : CubicBez) (t : ℝ) : PtR :=
  let t2 := t * t
  let t3 := t2 * t
  let mt := 1 - t
  let mt2 := mt * mt
  let mt3 := mt2 * mt
  ⟨mt3 * cubic.start.x + 3 * mt2 * t * cubic.cp1.x + 3 * mt * t2 * cubic.cp2.x + t3 * cubic.endp.x,
   mt3 * cubic.start.y + 3 * mt2 * t * cubic.cp1.y + 3 * mt * t2 * cubic.cp2.y + t3 * cubic.endp.y⟩

/-- `evaluateQuadraticBezier(quad, t)` from splineToQuadraticBezier.js. -/
noncomputable def evaluateQuadraticBezierR (quad : QuadBezR) (t : ℝ) : PtR :=
  let mt := 1 - t
  let mt2 := mt * mt
  let t2 := t * t
  ⟨mt2 * quad.start.x + 2 * mt * t * quad.cp.x + t2 * quad.endp.x,
   mt2 * quad.start.y + 2 * mt * t * quad.cp.y + t2 * quad.endp.y⟩

/-- `distance(p1, p2)` from splineToQuadraticBezier.js: Euclidean distance. -/
noncomputable def distancePt (p1 p2 : PtR) : ℝ :=
  Real.sqrt ((p2.x - p1.x) * (p2.x - p1.x) + (p2.y - p1.y) * (p2.y - p1.y))

/-- `cubicToQuadraticSimple(cubic)`: the single best-fit quadratic with
control point `(3 cp1 + 3 cp2 - start - end) / 4`. -/
noncomputable def cubicToQuadraticSimple (cubic : CubicBez) : QuadBezR :=
  { start := cubic.start
    cp := ⟨(3 * cubic.cp1.x + 3 * cubic.cp2.x - cubic.start.x - cubic.endp.x) / 4,
           (3 * cubic.cp1.y + 3 * cubic.cp2.y - cubic.start.y - cubic.endp.y) / 4⟩
    endp := cubic.endp }

/-- `calculateApproximationError(cubic, quadratic, samples)`: max distance
between the two curves at `samples + 1` equally spaced parameters (the
source's loop `for (i = 0; i <= samples; i++)` with `maxError` starting at
0). -/
noncomputable def calculateApproximationError (cubic : CubicBez) (quadratic : QuadBezR)
    (samples : ℕ) : ℝ :=
  (List.range (samples + 1)).foldl
    (fun maxError (i : ℕ) =>
      max maxError
        (distancePt (evaluateCubicBezier cubic ((i : ℝ) / (samples : ℝ)))
          (evaluateQuadraticBezierR quadratic ((i : ℝ) / (samples : ℝ))))) 0

/-- `subdivideCubic(cubic, t)`: De Casteljau subdivision into two cubics. -/
noncomputable def subdivideCubic (cubic : CubicBez) (t : ℝ) : CubicBez × CubicBez :=
  let p0 := cubic.start
  let p1 := cubic.cp1
  let p2 := cubic.cp2
  let p3 := cubic.endp
  let p01 : PtR := ⟨p0.x + t * (p1.x - p0.x), p0.y + t * (p1.y - p0.y)⟩
  let p12 : PtR := ⟨p1.x + t * (p2.x - p1.x), p1.y + t * (p2.y - p1.y)⟩
  let p23 : PtR := ⟨p2.x + t * (p3.x - p2.x), p2.y + t * (p3.y - p2.y)⟩
  let p012 : PtR := ⟨p01.x + t * (p12.x - p01.x), p01.y + t * (p12.y - p01.y)⟩
  let p123 : PtR := ⟨p12.x + t * (p23.x - p12.x), p12.y + t * (p23.y - p12.y)⟩
  let p0123 : PtR := ⟨p012.x + t * (p123.x - p012.x), p012.y + t * (p123.y - p012.y)⟩
  (⟨p0, p01, p012, p0123⟩, ⟨p0123, p123, p23, p3⟩)

/-- `cubicToQuadraticAdaptive(cubic, tolerance)`: the source's worklist loop
(`stack`/`result`, popping, accepting when the sampled error is within
tolerance, otherwise pushing the midpoint halves with the left half on
top).  The source's `while (stack.length > 0)` has no step bound, so the
loop is modelled with a fuel parameter: `none` means the fuel ran out
before the stack emptied; `some result` is the value the loop returns. -/
noncomputable def cubicToQuadraticAdaptive (tolerance : ℝ) :
    ℕ → List CubicBez → List QuadBezR → Option (List QuadBezR)
  | _, [], result => some result
  | 0, _ :: _, _ => none
  | fuel + 1, currentCubic :: stack, result =>
    let quad := cubicToQuadraticSimple currentCubic
    let error := calculateApproximationError currentCubic quad 20
    if error ≤ tolerance then
      cubicToQuadraticAdaptive tolerance fuel stack (result ++ [quad])
    else
      let halves := subdivideCubic currentCubic (1/2)
      cubicToQuadraticAdaptive tolerance fuel (halves.1 :: halves.2 :: stack) result

/-! ### Fold-max helpers for `calculateApproximationError` -/

/-- The running maximum never drops below its initial value. -/
theorem init_le_foldl_max {f : ℕ → ℝ} :
    ∀ (l : List ℕ) (init : ℝ), init ≤ l.foldl (fun m i => max m (f i)) init
  | [], _ => le_refl _
  | i :: l, init =>
    le_trans (le_max_left init (f i)) (init_le_foldl_max l (max init (f i)))

/-- Every sampled value is bounded by the fold of running maxima. -/
theorem le_foldl_max_of_mem {f : ℕ → ℝ} :
    ∀ (l : List ℕ) (init : ℝ) (i : ℕ), i ∈ l →
      f i ≤ l.foldl (fun m j => max m (f j)) init
  | [], _, _, h => absurd h (List.not_mem_nil _)
  | j :: l, init, i, h => by
    rcases List.mem_cons.mp h with h | h
    · subst h
      exact le_trans (le_max_right init (f i)) (init_le_foldl_max l _)
    · exact le_foldl_max_of_mem l _ i h

/-- The fold of running maxima is bounded by any common bound. -/
theorem foldl_max_le {f : ℕ → ℝ} :
    ∀ (l : List ℕ) (init B : ℝ), init ≤ B → (∀ i ∈ l, f i ≤ B) →
      l.foldl (fun m i => max m (f i)) init ≤ B
  | [], _, _, hinit, _ => hinit
  | i :: l, init, B, hinit, hall =>
    foldl_max_le l _ B (max_le hinit (hall i (by simp)))
      (fun j hj => hall j (List.mem_cons_of_mem i hj))

/-! ### Error analysis for the best-fit quadratic -/

/-- The 2D third difference `end - 3 cp2 + 3 cp1 - start` of a cubic: the
only part of the cubic the best-fit quadratic cannot represent. -/
noncomputable def thirdDiff (c : CubicBez) : PtR :=
  ⟨c.endp.x - 3 * c.cp2.x + 3 * c.cp1.x - c.start.x,
   c.endp.y - 3 * c.cp2.y + 3 * c.cp1.y - c.start.y⟩

/-- Euclidean norm of the third difference. -/
noncomputable def normThirdDiff (c : CubicBez) : ℝ :=
  Real.sqrt ((thirdDiff c).x ^ 2 + (thirdDiff c).y ^ 2)

/-- The cubic Hermite residual `t (t - 1/2) (t - 1)`. -/
noncomputable def residualPoly (t : ℝ) : ℝ := t * (t - 1/2) * (t - 1)

/-- Pointwise difference between a cubic and its best-fit quadratic is the
third difference scaled by the residual polynomial. -/
theorem cubic_sub_simple_quad (c : CubicBez) (t : ℝ) :
    (evaluateCubicBezier c t).x - (evaluateQuadraticBezierR (cubicToQuadraticSimple c) t).x
      = (thirdDiff c).x * residualPoly t ∧
    (evaluateCubicBezier c t).y - (evaluateQuadraticBezierR (cubicToQuadraticSimple c) t).y
      = (thirdDiff c).y * residualPoly t := by
  constructor <;>
    simp only [evaluateCubicBezier, evaluateQuadraticBezierR, cubicToQuadraticSimple,
      thirdDiff, residualPoly] <;> ring

/-- Distance between a cubic and its best-fit quadratic at parameter `t`. -/
theorem distance_cubic_simple_quad (c : CubicBez) (t : ℝ) :
    distancePt (evaluateCubicBezier c t) (evaluateQuadraticBezierR (cubicToQuadraticSimple c) t)
      = |residualPoly t| * normThirdDiff c := by
  obtain ⟨hx, hy⟩ := cubic_sub_simple_quad c t
  unfold distancePt normThirdDiff
  have hx' : (evaluateQuadraticBezierR (cubicToQuadraticSimple c) t).x -
      (evaluateCubicBezier c t).x = -((thirdDiff c).x * residualPoly t) := by linarith
  have hy' : (evaluateQuadraticBezierR (cubicToQuadraticSimple c) t).y -
      (evaluateCubicBezier c t).y = -((thirdDiff c).y * residualPoly t) := by linarith
  rw [hx', hy']
  have : -((thirdDiff c).x * residualPoly t) * -((thirdDiff c).x * residualPoly t) +
      -((thirdDiff c).y * residualPoly t) * -((thirdDiff c).y * residualPoly t)
      = residualPoly t ^ 2 * ((thirdDiff c).x ^ 2 + (thirdDiff c).y ^ 2) := by ring
  rw [this, Real.sqrt_mul (sq_nonneg _), Real.sqrt_sq_eq_abs]

/-- On the 21 sampled parameters `i/20`, the residual polynomial is bounded
by its maximal sampled magnitude `6/125` (attained at `t = 0.2` and
`t = 0.8`). -/
theorem residualPoly_sample_bound (i : ℕ) (hi : i ∈ List.range 21) :
    |residualPoly ((i : ℝ) / 20)| ≤ 6 / 125 := by
  rw [List.mem_range] at hi
  unfold residualPoly
  rw [abs_le]
  interval_cases i <;> constructor <;> norm_num

/-- The sampled error of the best-fit quadratic is at most
`(6/125) · ‖thirdDiff‖`. -/
theorem calculateApproximationError_le (c : CubicBez) :
    calculateApproximationError c (cubicToQuadraticSimple c) 20
      ≤ 6 / 125 * normThirdDiff c := by
  unfold calculateApproximationError
  have hnn : 0 ≤ normThirdDiff c := Real.sqrt_nonneg _
  refine foldl_max_le _ 0 _ (by positivity) ?_
  intro i hi
  have h20 : ((20 : ℕ) : ℝ) = (20 : ℝ) := by norm_num
  rw [h20, distance_cubic_simple_quad]
  exact mul_le_mul_of_nonneg_right (residualPoly_sample_bound i hi) hnn

/-- De Casteljau midpoint subdivision scales the third difference of each
half by `1/8`. -/
theorem thirdDiff_subdivide (c : CubicBez) :
    (thirdDiff (subdivideCubic c (1/2)).1).x = (thirdDiff c).x / 8 ∧
    (thirdDiff (subdivideCubic c (1/2)).1).y = (thirdDiff c).y / 8 ∧
    (thirdDiff (subdivideCubic c (1/2)).2).x = (thirdDiff c).x / 8 ∧
    (thirdDiff (subdivideCubic c (1/2)).2).y = (thirdDiff c).y / 8 := by
  refine ⟨?_, ?_, ?_, ?_⟩ <;> simp only [thirdDiff, subdivideCubic] <;> ring

/-- Hence the third-difference norm of each half is an eighth of the
original. -/
theorem normThirdDiff_subdivide (c : CubicBez) :
    normThirdDiff (subdivideCubic c (1/2)).1 = normThirdDiff c / 8 ∧
    normThirdDiff (subdivideCubic c (1/2)).2 = normThirdDiff c / 8 := by
  obtain ⟨h1, h2, h3, h4⟩ := thirdDiff_subdivide c
  have key : ∀ ex ey : ℝ, Real.sqrt ((ex / 8) ^ 2 + (ey / 8) ^ 2)
      = Real.sqrt (ex ^ 2 + ey ^ 2) / 8 := by
    intro ex ey
    rw [show (ex / 8) ^ 2 + (ey / 8) ^ 2 = (1/64) * (ex ^ 2 + ey ^ 2) by ring,
      Real.sqrt_mul (by norm_num),
      show Real.sqrt (1/64 : ℝ) = 1/8 by
        rw [show (1/64 : ℝ) = (1/8)^2 by norm_num, Real.sqrt_sq (by norm_num)]]
    ring
  constructor
  · unfold normThirdDiff
    rw [h1, h2, key]
  · unfold normThirdDiff
    rw [h3, h4, key]

/-! ### Termination of the adaptive worklist loop -/

/-- The worklist loop empties within some finite fuel. -/
def AdaptiveTerminates (tol : ℝ) (stack : List CubicBez) : Prop :=
  ∃ fuel, (cubicToQuadraticAdaptive tol fuel stack []).isSome

/-- Whether the loop empties its stack does not depend on the accumulated
result list. -/
theorem adaptive_isSome_indep (tol : ℝ) :
    ∀ (fuel : ℕ) (stack : List CubicBez) (acc acc' : List QuadBezR),
      (cubicToQuadraticAdaptive tol fuel stack acc).isSome →
      (cubicToQuadraticAdaptive tol fuel stack acc').isSome := by
  intro fuel
  induction fuel with
  | zero =>
    intro stack acc acc' h
    cases stack with
    | nil => simp [cubicToQuadraticAdaptive]
    | cons c s => simp [cubicToQuadraticAdaptive] at h
  | succ n ih =>
    intro stack acc acc' h
    cases stack with
    | nil => simp [cubicToQuadraticAdaptive]
    | cons c s =>
      by_cases herr :
        calculateApproximationError c (cubicToQuadraticSimple c) 20 ≤ tol
      · simp only [cubicToQuadraticAdaptive, if_pos herr] at h ⊢
        exact ih s _ _ h
      · simp only [cubicToQuadraticAdaptive, if_neg herr] at h ⊢
        exact ih _ _ _ h

/-- Pushing a cubic whose third-difference norm fits in the `d`-th error
budget onto a terminating stack keeps the stack terminating: subdivision
divides the norm by 8 per level, so after at most `d` levels every piece is
accepted. -/
theorem adaptive_terminates_cons (tol : ℝ) :
    ∀ (d : ℕ) (c : CubicBez) (stack : List CubicBez),
      normThirdDiff c ≤ tol * (125 / 6) * 8 ^ d →
      AdaptiveTerminates tol stack → AdaptiveTerminates tol (c :: stack) := by
  intro d
  induction d with
  | zero =>
    intro c stack hbound hstack
    obtain ⟨f, hf⟩ := hstack
    have herr : calculateApproximationError c (cubicToQuadraticSimple c) 20 ≤ tol := by
      have h1 := calculateApproximationError_le c
      have h2 : 6 / 125 * normThirdDiff c ≤ 6 / 125 * (tol * (125 / 6) * 8 ^ 0) := by
        have : (0:ℝ) ≤ 6 / 125 := by norm_num
        exact mul_le_mul_of_nonneg_left hbound this
      calc calculateApproximationError c (cubicToQuadraticSimple c) 20
          ≤ 6 / 125 * normThirdDiff c := h1
        _ ≤ 6 / 125 * (tol * (125 / 6) * 8 ^ 0) := h2
        _ = tol := by ring
    refine ⟨f + 1, ?_⟩
    simp only [cubicToQuadraticAdaptive, if_pos herr]
    exact adaptive_isSome_indep tol f stack [] _ hf
  | succ d ih =>
    intro c stack hbound hstack
    by_cases herr : calculateApproximationError c (cubicToQuadraticSimple c) 20 ≤ tol
    · obtain ⟨f, hf⟩ := hstack
      refine ⟨f + 1, ?_⟩
      simp only [cubicToQuadraticAdaptive, if_pos herr]
      exact adaptive_isSome_indep tol f stack [] _ hf
    · obtain ⟨hL, hR⟩ := normThirdDiff_subdivide c
      have hb8 : normThirdDiff c / 8 ≤ tol * (125 / 6) * 8 ^ d := by
        have h8 : (0:ℝ) < 8 := by norm_num
        rw [div_le_iff₀ h8]
        calc normThirdDiff c ≤ tol * (125 / 6) * 8 ^ (d + 1) := hbound
          _ = tol * (125 / 6) * 8 ^ d * 8 := by ring
      have hRterm : AdaptiveTerminates tol ((subdivideCubic c (1/2)).2 :: stack) :=
        ih (subdivideCubic c (1/2)).2 stack (hR ▸ hb8) hstack
      have hLterm : AdaptiveTerminates tol
          ((subdivideCubic c (1/2)).1 :: (subdivideCubic c (1/2)).2 :: stack) :=
        ih (subdivideCubic c (1/2)).1 _ (hL ▸ hb8) hRterm
      obtain ⟨f, hf⟩ := hLterm
      refine ⟨f + 1, ?_⟩
      simp only [cubicToQuadraticAdaptive, if_neg herr]
      exact hf

/-! ## Theorems for claim C8 -/

/-- C8. Termination of the adaptive subdivision: for every cubic Bezier and
every tolerance `ε > 0`, the worklist loop of `cubicToQuadraticAdaptive`
empties its stack after finitely many steps (some finite fuel suffices),
even though the source imposes no recursion-depth ceiling. -/
theorem cubicToQuadraticAdaptive_terminates (cubic : CubicBez) (tol : ℝ) (htol : 0 < tol) :
    ∃ fuel res, cubicToQuadraticAdaptive tol fuel [cubic] [] = some res := by
  obtain ⟨d, hd⟩ := pow_unbounded_of_one_lt (normThirdDiff cubic / (tol * (125 / 6)))
    (show (1:ℝ) < 8 by norm_num)
  have hpos : (0:ℝ) < tol * (125 / 6) := by positivity
  have hbound : normThirdDiff cubic ≤ tol * (125 / 6) * 8 ^ d := by
    rw [div_lt_iff₀ hpos] at hd
    calc normThirdDiff cubic ≤ 8 ^ d * (tol * (125/6)) := le_of_lt hd
      _ = tol * (125 / 6) * 8 ^ d := by ring
  have hterm : AdaptiveTerminates tol [cubic] :=
    adaptive_terminates_cons tol d cubic []
      hbound ⟨0, by simp [cubicToQuadraticAdaptive]⟩
  obtain ⟨fuel, hf⟩ := hterm
  obtain ⟨res, hres⟩ := Option.isSome_iff_exists.mp hf
  exact ⟨fuel, res, hres⟩

/-- Witness for C8: the degenerate cubic with all control points at the
origin and tolerance 1. -/
theorem cubicToQuadraticAdaptive_terminates_witness :
    ∃ fuel res, cubicToQuadraticAdaptive 1 fuel
      [⟨⟨0, 0⟩, ⟨0, 0⟩, ⟨0, 0⟩, ⟨0, 0⟩⟩] [] = some res :=
  cubicToQuadraticAdaptive_terminates ⟨⟨0, 0⟩, ⟨0, 0⟩, ⟨0, 0⟩, ⟨0, 0⟩⟩ 1 (by norm_num)

/-! ## Theorems for claim C6 -/

/-- Soundness invariant of the worklist loop: a quadratic enters the result
list only after passing the `error <= tolerance` check against the cubic it
approximates. -/
theorem adaptive_emitted_sound (tol : ℝ) :
    ∀ (fuel : ℕ) (stack : List CubicBez) (acc res : List QuadBezR),
      cubicToQuadraticAdaptive tol fuel stack acc = some res →
      (∀ q ∈ acc, ∃ c, q = cubicToQuadraticSimple c ∧
        calculateApproximationError c q 20 ≤ tol) →
      ∀ q ∈ res, ∃ c, q = cubicToQuadraticSimple c ∧
        calculateApproximationError c q 20 ≤ tol := by
  intro fuel
  induction fuel with
  | zero =>
    intro stack acc res h hacc
    cases stack with
    | nil =>
      simp only [cubicToQuadraticAdaptive, Option.some.injEq] at h
      subst h; exact hacc
    | cons c s => simp [cubicToQuadraticAdaptive] at h
  | succ n ih =>
    intro stack acc res h hacc
    cases stack with
    | nil =>
      simp only [cubicToQuadraticAdaptive, Option.some.injEq] at h
      subst h; exact hacc
    | cons c s =>
      by_cases herr :
        calculateApproximationError c (cubicToQuadraticSimple c) 20 ≤ tol
      · simp only [cubicToQuadraticAdaptive, if_pos herr] at h
        refine ih s _ res h ?_
        intro q hq
        rcases List.mem_append.mp hq with hq | hq
        · exact hacc q hq
        · rw [List.mem_singleton] at hq
          subst hq
          exact ⟨c, rfl, herr⟩
      · simp only [cubicToQuadraticAdaptive, if_neg herr] at h
        exact ih _ _ res h hacc

/-- C6. Approximation bound: every quadratic emitted by a completed run of
`cubicToQuadraticAdaptive` deviates from the cubic it approximates by at
most the tolerance at each of the 21 sampled parameters `i/20` (the metric
of `calculateApproximationError`). -/
theorem cubicToQuadraticAdaptive_error_bound (cubic : CubicBez) (tol : ℝ)
    (fuel : ℕ) (res : List QuadBezR)
    (hrun : cubicToQuadraticAdaptive tol fuel [cubic] [] = some res) :
    ∀ q ∈ res, ∃ c, q = cubicToQuadraticSimple c ∧
      calculateApproximationError c q 20 ≤ tol ∧
      ∀ i ∈ List.range 21,
        distancePt (evaluateCubicBezier c ((i : ℝ) / 20))
          (evaluateQuadraticBezierR q ((i : ℝ) / 20)) ≤ tol := by
  intro q hq
  obtain ⟨c, hqc, herr⟩ := adaptive_emitted_sound tol fuel [cubic] [] res hrun
    (by intro q hq; exact absurd hq (List.not_mem_nil q)) q hq
  refine ⟨c, hqc, herr, ?_⟩
  intro i hi
  have hsample : distancePt (evaluateCubicBezier c ((i : ℝ) / ((20 : ℕ) : ℝ)))
      (evaluateQuadraticBezierR q ((i : ℝ) / ((20 : ℕ) : ℝ)))
      ≤ calculateApproximationError c q 20 := by
    unfold calculateApproximationError
    exact @le_foldl_max_of_mem
      (fun j : ℕ => distancePt (evaluateCubicBezier c ((j : ℝ) / ((20 : ℕ) : ℝ)))
        (evaluateQuadraticBezierR q ((j : ℝ) / ((20 : ℕ) : ℝ))))
      (List.range (20 + 1)) 0 i hi
  have h20 : ((20 : ℕ) : ℝ) = (20 : ℝ) := by norm_num
  rw [h20] at hsample
  exact le_trans hsample herr

/-- Witness for C6: the degenerate all-zero cubic, tolerance 1, one step of
fuel; the run completes and emits its best-fit quadratic. -/
theorem cubicToQuadraticAdaptive_error_bound_witness :
    cubicToQuadraticAdaptive 1 1 [⟨⟨0, 0⟩, ⟨0, 0⟩, ⟨0, 0⟩, ⟨0, 0⟩⟩] []
      = some [cubicToQuadraticSimple ⟨⟨0, 0⟩, ⟨0, 0⟩, ⟨0, 0⟩, ⟨0, 0⟩⟩] ∧
    ∀ q ∈ [cubicToQuadraticSimple (⟨⟨0, 0⟩, ⟨0, 0⟩, ⟨0, 0⟩, ⟨0, 0⟩⟩ : CubicBez)],
      ∃ c, q = cubicToQuadraticSimple c ∧
        calculateApproximationError c q 20 ≤ 1 ∧
        ∀ i ∈ List.range 21,
          distancePt (evaluateCubicBezier c ((i : ℝ) / 20))
            (evaluateQuadraticBezierR q ((i : ℝ) / 20)) ≤ 1 := by
  have hnorm : normThirdDiff ⟨⟨0, 0⟩, ⟨0, 0⟩, ⟨0, 0⟩, ⟨0, 0⟩⟩ = 0 := by
    unfold normThirdDiff thirdDiff
    norm_num
  have herr : calculateApproximationError ⟨⟨0, 0⟩, ⟨0, 0⟩, ⟨0, 0⟩, ⟨0, 0⟩⟩
      (cubicToQuadraticSimple ⟨⟨0, 0⟩, ⟨0, 0⟩, ⟨0, 0⟩, ⟨0, 0⟩⟩) 20 ≤ 1 := by
    refine le_trans (calculateApproximationError_le _) ?_
    rw [hnorm]
    norm_num
  have hrun : cubicToQuadraticAdaptive 1 1 [⟨⟨0, 0⟩, ⟨0, 0⟩, ⟨0, 0⟩, ⟨0, 0⟩⟩] []
      = some [cubicToQuadraticSimple ⟨⟨0, 0⟩, ⟨0, 0⟩, ⟨0, 0⟩, ⟨0, 0⟩⟩] := by
    simp only [cubicToQuadraticAdaptive, if_pos herr, List.nil_append]
  exact ⟨hrun, cubicToQuadraticAdaptive_error_bound _ 1 1 _ hrun⟩

/-! ## Shader layer
(src/frontend/src/shaders/square_mirror_fragment_asym.glsl and the
revolution-profile shader in the unnamed sources) — over the reals. -/

/-- A GLSL `vec3`. -/
structure Vec3 where
  x : ℝ
  y : ℝ
  z : ℝ

/-- `intersectSegment(a, b_coeff, c_coeff, yMin, yMax, ro, rd)` from
square_mirror_fragment_asym.glsl lines 87-137, with the uniform
`u_mirrorDist` passed explicitly.  Early `return -1.0` statements become
sentinel branches; the shared `hitY` domain validation (lines 117-136)
applies to the value of `t` chosen by either the linear or the quadratic
branch. -/
noncomputable def intersectSegment (a b_coeff c_coeff yMin yMax : ℝ) (ro rd : Vec3)
    (mirrorDist : ℝ) : ℝ :=
  let qA := a * rd.y * rd.y
  let qB := 2 * a * ro.y * rd.y + b_coeff * rd.y - rd.z
  let qC := a * ro.y * ro.y + b_coeff * ro.y + c_coeff + mirrorDist - ro.z
  -- lines 117-136: t < 0 check, then hitY domain validation with the
  -- other-root fallback
  let validate : ℝ → ℝ := fun t =>
    if t < 0 then -1
    else
      let hitY := ro.y + rd.y * t
      if hitY < yMin ∨ hitY > yMax then
        let disc := qB * qB - 4 * qA * qC
        if disc < 0 ∨ |qA| < 1e-10 then -1
        else
          let sq := Real.sqrt disc
          let t1 := (-qB - sq) / (2 * qA)
          let t2 := (-qB + sq) / (2 * qA)
          let tOther := if t = min t1 t2 then max t1 t2 else min t1 t2
          if tOther < 0.001 then -1
          else
            let hitY2 := ro.y + rd.y * tOther
            if hitY2 < yMin ∨ hitY2 > yMax then -1 else tOther
      else t
  if |qA| < 1e-10 then
    -- Linear: qB*t + qC = 0
    if |qB| < 1e-10 then -1
    else
      let t := -qC / qB
      if t < 0.001 then -1 else validate t
  else
    let disc := qB * qB - 4 * qA * qC
    if disc < 0 then -1
    else
      let sq := Real.sqrt disc
      let t1 := (-qB - sq) / (2 * qA)
      let t2 := (-qB + sq) / (2 * qA)
      -- pick smallest positive root
      let tMin := min t1 t2
      let tMax := max t1 t2
      let t := if tMin > 0.001 then tMin else (if tMax > 0.001 then tMax else -1)
      validate t

/-! ## Theorems for claim C2

The claim asserts the exact flat-mirror hit for *any* `direction.z > 0`,
but the linear branch first tests `|qB| = |direction.z| < 1e-10` and
returns the sentinel, so a grazing ray with `0 < direction.z < 1e-10` gets
no hit even when the analytic `t` is positive and in-domain. -/

/-- C2 counterexample: flat segment `a = b = 0, c = 1` on `y ∈ [-1, 1]`,
mirror distance 1, ray from the origin with `direction = (0, 0, 1e-11)`.
The analytic hit `t = (c + mirrorDist)/direction.z = 2·10¹¹` exceeds the
0.001 threshold and its hit `y = 0` is in-domain, yet `intersectSegment`
returns the sentinel `-1`. -/
theorem intersectSegment_flat_small_dz_counterexample :
    intersectSegment 0 0 1 (-1) 1 ⟨0, 0, 0⟩ ⟨0, 0, 1e-11⟩ 1 = -1 ∧
    ((1 : ℝ) + 1) / (1e-11 : ℝ) = 2e11 ∧
    (0.001 : ℝ) < 2e11 ∧ (-1 : ℝ) ≠ 2e11 := by
  refine ⟨?_, by norm_num, by norm_num, by norm_num⟩
  unfold intersectSegment
  norm_num
  rw [abs_of_pos] <;> norm_num

/-- C2 (amended). Flat-mirror intersection exactness: for a segment with
`a = 0`, `b = 0` and constant `c` whose domain contains the hit, and a ray
from the camera origin with `direction.z ≥ 1e-10` (the linear-branch
guard), `intersectSegment` returns exactly
`t = (c + mirrorDist) / direction.z`, provided this `t` exceeds the 0.001
self-intersection threshold. -/
theorem intersectSegment_flat_exact (c_coeff mirrorDist yMin yMax : ℝ) (rd : Vec3)
    (hdz : (1e-10 : ℝ) ≤ rd.z)
    (ht : (0.001 : ℝ) < (c_coeff + mirrorDist) / rd.z)
    (hy1 : yMin ≤ rd.y * ((c_coeff + mirrorDist) / rd.z))
    (hy2 : rd.y * ((c_coeff + mirrorDist) / rd.z) ≤ yMax) :
    intersectSegment 0 0 c_coeff yMin yMax ⟨0, 0, 0⟩ rd mirrorDist
      = (c_coeff + mirrorDist) / rd.z := by
  have hz : (0:ℝ) < rd.z := lt_of_lt_of_le (by norm_num) hdz
  have hdz' : (1/10000000000 : ℝ) ≤ rd.z := by
    calc (1/10000000000 : ℝ) = 1e-10 := by norm_num
      _ ≤ rd.z := hdz
  have ht' : (1/1000 : ℝ) < (c_coeff + mirrorDist) / rd.z := by
    calc (1/1000 : ℝ) = 1e-3 := by norm_num
      _ < (c_coeff + mirrorDist) / rd.z := ht
  have hkey : (-mirrorDist + -c_coeff) / -rd.z = (c_coeff + mirrorDist) / rd.z := by
    rw [show (-mirrorDist + -c_coeff) = -(c_coeff + mirrorDist) by ring, neg_div_neg_eq]
  unfold intersectSegment
  norm_num
  rw [hkey]
  split_ifs with h1 h2 h3 h4
  · exfalso
    rw [abs_of_pos hz] at h1
    linarith
  · exfalso
    linarith
  · exfalso
    linarith
  · exfalso
    rcases h4 with h4 | h4 <;> linarith
  · rfl

/-- Witness for C2 (amended) at `c = 1, mirrorDist = 1, rd = (0,0,1)`,
domain `[-1, 1]`: the returned hit is `t = 2`. -/
theorem intersectSegment_flat_exact_witness :
    (1e-10 : ℝ) ≤ (1 : ℝ) ∧ (0.001 : ℝ) < ((1 : ℝ) + 1) / 1 ∧
    intersectSegment 0 0 1 (-1) 1 ⟨0, 0, 0⟩ ⟨0, 0, 1⟩ 1 = ((1 : ℝ) + 1) / 1 :=
  ⟨by norm_num, by norm_num,
    intersectSegment_flat_exact 1 1 (-1) 1 ⟨0, 0, 1⟩ (by norm_num) (by norm_num)
      (by norm_num) (by norm_num)⟩

/-! ## Ferrari quartic solver (revolution-profile fragment shader in the
unnamed sources, `solveCubicDepressed` lines 66-81 and `solveQuartic`
lines 86-203) -/

/-- `solveCubicDepressed(p, q)`: one real root of `t³ + p t + q = 0`,
Cardano for nonnegative discriminant, the trigonometric form otherwise
(GLSL `sign(u) * pow(abs(u), 1/3)` is `Real.sign u * |u| ^ (1/3 : ℝ)`). -/
noncomputable def solveCubicDepressed (p q : ℝ) : ℝ :=
  let disc := q * q / 4 + p * p * p / 27
  if disc ≥ 0 then
    let sqrtDisc := Real.sqrt disc
    let u := -q / 2 + sqrtDisc
    let v := -q / 2 - sqrtDisc
    Real.sign u * |u| ^ ((1 : ℝ) / 3) + Real.sign v * |v| ^ ((1 : ℝ) / 3)
  else
    let m := Real.sqrt (-4 * p / 3)
    let theta := Real.arccos (3 * q / (p * m)) / 3
    m * Real.cos theta

/-- `solveQuartic(c0, c1, c2, c3, c4)`: smallest real root above the 0.001
threshold of `c4 t⁴ + c3 t³ + c2 t² + c1 t + c0 = 0`, or the sentinel
`-1.0`.  The source's mutable `bestT` (initialised to `1e20`, updated by
the sequential root checks, compared against `1e19` at the end) becomes a
chain of lets; all branches, including the degenerate quadratic, the
biquadratic shortcut (`|q| < 1e-10`), and the two Ferrari quadratic
factors, mirror the source. -/
noncomputable def solveQuartic (c0 c1 c2 c3 c4 : ℝ) : ℝ :=
  if |c4| < 1e-10 then
    if |c3| < 1e-10 then
      if |c2| < 1e-10 then -1
      else
        let disc := c1 * c1 - 4 * c2 * c0
        if disc < 0 then -1
        else
          let sq := Real.sqrt disc
          let t1 := (-c1 - sq) / (2 * c2)
          let t2 := (-c1 + sq) / (2 * c2)
          let tMin := min t1 t2
          let tMax := max t1 t2
          if tMin > 0.001 then tMin
          else if tMax > 0.001 then tMax
          else -1
    else -1  -- "For cubic, fall through" comment: the source returns -1.0
  else
    let b := c3 / c4
    let c := c2 / c4
    let d := c1 / c4
    let e := c0 / c4
    let b2 := b * b
    let b3 := b2 * b
    let b4 := b2 * b2
    let p := c - 3 * b2 / 8
    let q := d - b * c / 2 + b3 / 8
    let r := e - b * d / 4 + b2 * c / 16 - 3 * b4 / 256
    if |q| < 1e-10 then
      -- biquadratic shortcut: u⁴ + p u² + r = 0
      let disc := p * p - 4 * r
      if disc < 0 then -1
      else
        let sq := Real.sqrt disc
        let s1 := (-p + sq) / 2
        let s2 := (-p - sq) / 2
        let bestT0 := (1e20 : ℝ)
        let bestT1 :=
          if s1 ≥ 0 then
            let u := Real.sqrt s1
            let t1 := u - b / 4
            let t2 := -u - b / 4
            let m1 := if t1 > 0.001 ∧ t1 < bestT0 then t1 else bestT0
            if t2 > 0.001 ∧ t2 < m1 then t2 else m1
          else bestT0
        let bestT2 :=
          if s2 ≥ 0 then
            let u := Real.sqrt s2
            let t1 := u - b / 4
            let t2 := -u - b / 4
            let m1 := if t1 > 0.001 ∧ t1 < bestT1 then t1 else bestT1
            if t2 > 0.001 ∧ t2 < m1 then t2 else m1
          else bestT1
        if bestT2 < 1e19 then bestT2 else -1
    else
      -- Ferrari resolvent cubic, depressed form
      let rp := p / 2
      let rq := (p * p - 4 * r) / 16
      let rr := -q * q / 64
      let rp2 := rp * rp
      let alpha := rq - rp2 / 3
      let beta := rr - rp * rq / 3 + 2 * rp2 * rp / 27
      let m := solveCubicDepressed alpha beta - rp / 3
      let sq2mp0 := 2 * m + p
      let sq2mp := if sq2mp0 < 0 then 0 else sq2mp0  -- numerical safety clamp
      let w := Real.sqrt sq2mp
      let bestT0 := (1e20 : ℝ)
      let bestT :=
        if w > 1e-12 then
          let qOver2w := q / (2 * w)
          let bA :=
            let disc1 := w * w - 4 * (m + qOver2w)
            if disc1 ≥ 0 then
              let sq1 := Real.sqrt disc1
              let u1 := (-w + sq1) / 2
              let u2 := (-w - sq1) / 2
              let t1 := u1 - b / 4
              let t2 := u2 - b / 4
              let m1 := if t1 > 0.001 ∧ t1 < bestT0 then t1 else bestT0
              if t2 > 0.001 ∧ t2 < m1 then t2 else m1
            else bestT0
          let disc2 := w * w - 4 * (m - qOver2w)
          if disc2 ≥ 0 then
            let sq2 := Real.sqrt disc2
            let u1 := (w + sq2) / 2
            let u2 := (w - sq2) / 2
            let t1 := u1 - b / 4
            let t2 := u2 - b / 4
            let m1 := if t1 > 0.001 ∧ t1 < bA then t1 else bA
            if t2 > 0.001 ∧ t2 < m1 then t2 else m1
          else bA
        else bestT0
      if bestT < 1e19 then bestT else -1

/-! ## Theorems for claim C3

The solver's own documentation ("Returns the smallest positive real root,
or -1.0 if none exists") fails at a quartic whose depressed form has a tiny
but nonzero linear coefficient: the `|q| < 1e-10` biquadratic shortcut
solves the *nearby* biquadratic instead.  For
`t⁴ - 2 t² + 1e-11 t + 1`, every `t > 0` gives
`(t² - 1)² + 1e-11 t > 0`, so there is no positive real root at all — yet
the shortcut returns `1.0`, which is not a root. -/

/-- C3 failing input: `solveQuartic(c0 = 1, c1 = 1e-11, c2 = -2, c3 = 0,
c4 = 1)` returns `1.0`, although the quartic has no real root above the
0.001 threshold (so by the claim it should return the `-1.0` sentinel),
and `1.0` is itself not a root. -/
theorem solveQuartic_biquadratic_shortcut_bug :
    solveQuartic 1 (1e-11) (-2) 0 1 = 1 ∧
    (∀ t : ℝ, (0.001 : ℝ) < t →
      1 * t ^ 4 + 0 * t ^ 3 + (-2) * t ^ 2 + (1e-11) * t + 1 ≠ 0) ∧
    (1 : ℝ) ≠ -1 := by
  refine ⟨?_, ?_, by norm_num⟩
  · unfold solveQuartic
    norm_num [abs_one, abs_of_pos, Real.sqrt_zero, Real.sqrt_one]
  · intro t ht h
    have htpos : (0 : ℝ) < t := lt_trans (by norm_num) ht
    have hsq : (0 : ℝ) ≤ (t ^ 2 - 1) ^ 2 := sq_nonneg _
    have heps : (0 : ℝ) < (1e-11 : ℝ) * t := by positivity
    nlinarith [hsq, heps]

/-! ## Paraboloid fast path (revolution-profile fragment shader,
`solveQuadraticFastPath`, lines 212-243 of the unnamed shader source) -/

/-- `solveQuadraticFastPath(ro, rd, a1, a0)` with the uniform
`u_mirrorDist` passed explicitly: quadratic intersection with the
paraboloid `z = a1 (x² + y²) + a0 + mirrorDist`.  Note the source divides
by `2 qa` with no guard on `qa`. -/
noncomputable def solveQuadraticFastPath (ro rd : Vec3) (a1 a0 : ℝ) (mirrorDist : ℝ) : ℝ :=
  let A := rd.x * rd.x + rd.y * rd.y
  let B := 2 * (ro.x * rd.x + ro.y * rd.y)
  let C := ro.x * ro.x + ro.y * ro.y
  let qa := a1 * A
  let qb := a1 * B - rd.z
  let qc := a1 * C + a0 + mirrorDist - ro.z
  let disc := qb * qb - 4 * qa * qc
  if disc < 0 then -1
  else
    let sq := Real.sqrt disc
    let t1 := (-qb - sq) / (2 * qa)
    let t2 := (-qb + sq) / (2 * qa)
    let tMin := min t1 t2
    let tMax := max t1 t2
    if tMin > 0.001 then tMin
    else if tMax > 0.001 then tMax
    else -1

/-! ## Division-safety predicates for claim C7

Each predicate records, for one solver, that every division executed along
a path whose branch conditions hold has a nonzero denominator (divisions by
numeric literal constants excluded — those denominators cannot be zero). -/

/-- Division safety of `intersectSegment`: the linear branch divides by
`qB` only after `¬(|qB| < 1e-10)`, and the quadratic branch and the
other-root fallback divide by `2 qA` only under `¬(|qA| < 1e-10)` (the
fallback also re-checks the discriminant). -/
def intersectSegmentDivSafe (a b_coeff c_coeff mirrorDist : ℝ) (ro rd : Vec3) : Prop :=
  let qA := a * rd.y * rd.y
  let qB := 2 * a * ro.y * rd.y + b_coeff * rd.y - rd.z
  let qC := a * ro.y * ro.y + b_coeff * ro.y + c_coeff + mirrorDist - ro.z
  let disc := qB * qB - 4 * qA * qC
  (|qA| < 1e-10 → ¬(|qB| < 1e-10) → qB ≠ 0) ∧
  (¬(|qA| < 1e-10) → 2 * qA ≠ 0) ∧
  (¬(disc < 0 ∨ |qA| < 1e-10) → 2 * qA ≠ 0)

/-- Division safety of `solveCubicDepressed`: the trigonometric branch
(negative discriminant) divides by `p·m` with `m = √(-4p/3)`; a negative
discriminant forces `p < 0`, hence `p·m < 0 ≠ 0`. -/
def solveCubicDepressedDivSafe (p q : ℝ) : Prop :=
  q * q / 4 + p * p * p / 27 < 0 → p * Real.sqrt (-4 * p / 3) ≠ 0

/-- Division safety of `solveQuartic`: normalisation divides by `c4` only
under `¬(|c4| < 1e-10)`; the degenerate quadratic divides by `2 c2` only
under `¬(|c2| < 1e-10)`; `q/(2w)` is computed only under `w > 1e-12`; and
the resolvent-cubic call is division-safe. -/
def solveQuarticDivSafe (c0 c1 c2 c3 c4 : ℝ) : Prop :=
  let b := c3 / c4
  let c := c2 / c4
  let d := c1 / c4
  let e := c0 / c4
  let b2 := b * b
  let b3 := b2 * b
  let p := c - 3 * b2 / 8
  let q := d - b * c / 2 + b3 / 8
  let r := e - b * d / 4 + b2 * c / 16 - 3 * (b2 * b2) / 256
  let rp := p / 2
  let rq := (p * p - 4 * r) / 16
  let rp2 := rp * rp
  let alpha := rq - rp2 / 3
  let beta := -q * q / 64 - rp * rq / 3 + 2 * rp2 * rp / 27
  let m := solveCubicDepressed alpha beta - rp / 3
  let sq2mp0 := 2 * m + p
  let sq2mp := if sq2mp0 < 0 then 0 else sq2mp0
  let w := Real.sqrt sq2mp
  (|c4| < 1e-10 → |c3| < 1e-10 → ¬(|c2| < 1e-10) → 2 * c2 ≠ 0) ∧
  (¬(|c4| < 1e-10) → c4 ≠ 0) ∧
  (¬(|c4| < 1e-10) → ¬(|q| < 1e-10) → w > 1e-12 → 2 * w ≠ 0) ∧
  (¬(|c4| < 1e-10) → ¬(|q| < 1e-10) → solveCubicDepressedDivSafe alpha beta)

/-- Division "safety" of `solveQuadraticFastPath`: whenever the
discriminant check passes, the executed path divides by `2 qa` — safety
would require that denominator to be nonzero.  The source has no guard on
`qa`, and this predicate is falsifiable. -/
def solveQuadraticFastPathDivSafe (ro rd : Vec3) (a1 a0 mirrorDist : ℝ) : Prop :=
  let A := rd.x * rd.x + rd.y * rd.y
  let B := 2 * (ro.x * rd.x + ro.y * rd.y)
  let C := ro.x * ro.x + ro.y * ro.y
  let qa := a1 * A
  let qb := a1 * B - rd.z
  let qc := a1 * C + a0 + mirrorDist - ro.z
  ¬(qb * qb - 4 * qa * qc < 0) → 2 * qa ≠ 0

/-! ## Theorems for claim C7 -/

/-- C7 counterexample: for the central ray `rd = (0,0,1)` from the origin
against a flat revolution profile (`a1 = 0`, `a0 = 0`, mirror distance 2),
the fast path's discriminant is `1 ≥ 0` yet `2 qa = 0`: the executed
branch divides by zero with no preceding guard, refuting the claim that no
solver layer divides by a possibly-zero denominator unguarded. -/
theorem solveQuadraticFastPath_unguarded_division :
    ¬ solveQuadraticFastPathDivSafe ⟨0, 0, 0⟩ ⟨0, 0, 1⟩ 0 0 2 := by
  unfold solveQuadraticFastPathDivSafe
  norm_num

/-- C7 (amended). The per-segment quadratic solver, the quartic solver and
its resolvent cubic guard every division by a possibly-zero denominator
with an explicit branch (near-zero coefficient or discriminant tests that
fall back to the `-1.0` sentinel); the paraboloid fast path alone divides
by `2·qa = 2·a1·(rd.x² + rd.y²)` without such a guard. -/
theorem solvers_division_guards :
    (∀ (a b_coeff c_coeff mirrorDist : ℝ) (ro rd : Vec3),
      intersectSegmentDivSafe a b_coeff c_coeff mirrorDist ro rd) ∧
    (∀ c0 c1 c2 c3 c4 : ℝ, solveQuarticDivSafe c0 c1 c2 c3 c4) ∧
    (∀ p q : ℝ, solveCubicDepressedDivSafe p q) := by
  have habs_ne : ∀ x : ℝ, ¬(|x| < 1e-10) → x ≠ 0 := by
    intro x hx h0
    rw [h0] at hx
    simp at hx
    norm_num at hx
  have hcubic : ∀ p q : ℝ, solveCubicDepressedDivSafe p q := by
    intro p q
    unfold solveCubicDepressedDivSafe
    intro hdisc
    have hq : (0:ℝ) ≤ q * q / 4 := by
      have := mul_self_nonneg q
      linarith
    have hp3 : p * p * p < 0 := by nlinarith
    have hp : p < 0 := by
      by_contra hp
      push_neg at hp
      nlinarith
    have hm : 0 < Real.sqrt (-4 * p / 3) :=
      Real.sqrt_pos.mpr (by linarith)
    exact (mul_neg_of_neg_of_pos hp hm).ne
  refine ⟨?_, ?_, hcubic⟩
  · intro a b_coeff c_coeff mirrorDist ro rd
    unfold intersectSegmentDivSafe
    refine ⟨fun _ hqB => habs_ne _ hqB, fun hqA => ?_, fun h => ?_⟩
    · exact mul_ne_zero (by norm_num) (habs_ne _ hqA)
    · push_neg at h
      exact mul_ne_zero (by norm_num) (habs_ne _ (not_lt.mpr h.2))
  · intro c0 c1 c2 c3 c4
    unfold solveQuarticDivSafe
    refine ⟨fun _ _ hc2 => mul_ne_zero (by norm_num) (habs_ne _ hc2),
      fun hc4 => habs_ne _ hc4, fun _ _ hw => ?_, fun _ _ => hcubic _ _⟩
    exact mul_ne_zero (by norm_num)
      (ne_of_gt (lt_trans (show (0:ℝ) < 1e-12 by norm_num) hw))

/-! ## Shading/projection tail of the asymmetric fragment shader
(square_mirror_fragment_asym.glsl, `computeNormal` lines 153-156 and
`main` lines 228-262) -/

/-- GLSL `dot` for `vec3`. -/
noncomputable def dot3 (u v : Vec3) : ℝ :=
  u.x * v.x + u.y * v.y + u.z * v.z

/-- GLSL `normalize` for `vec3`. -/
noncomputable def normalize3 (v : Vec3) : Vec3 :=
  let len := Real.sqrt (dot3 v v)
  ⟨v.x / len, v.y / len, v.z / len⟩

/-- GLSL `reflect(I, N) = I - 2 dot(N, I) N`. -/
noncomputable def reflect3 (i n : Vec3) : Vec3 :=
  ⟨i.x - 2 * dot3 n i * n.x, i.y - 2 * dot3 n i * n.y, i.z - 2 * dot3 n i * n.z⟩

/-- `computeNormal(hitY, a, b_coeff)` from
square_mirror_fragment_asym.glsl: `normalize(vec3(0, 2a·y + b, -1))`. -/
noncomputable def computeNormal (hitY a b_coeff : ℝ) : Vec3 :=
  normalize3 ⟨0, 2 * a * hitY + b_coeff, -1⟩

/-- GLSL `clamp`. -/
noncomputable def clampR (x lo hi : ℝ) : ℝ := min (max x lo) hi

/-- GLSL `smoothstep(edge0, edge1, x)`. -/
noncomputable def smoothstep (e0 e1 x : ℝ) : ℝ :=
  let t := clampR ((x - e0) / (e1 - e0)) 0 1
  t * t * (3 - 2 * t)

/-- Outcome of the shading tail of `main` after a valid mirror hit,
distinguishing the three `gl_FragColor` sites: the "behind mirror"
fallback, the outside-image fallback, and a webcam texture sample (with
the UV it sampled). -/
inductive ShadeResult where
  | behindMirror (color : Vec3)
  | outsideImage (color : Vec3)
  | sampled (color : Vec3) (uv : ℝ × ℝ)

/-- Lines 228-262 of square_mirror_fragment_asym.glsl `main`, from the
normal computation at the winning segment to the final color: reflection,
behind-mirror rejection, image-plane projection, UV flip and bounds test,
then `texColor.rgb * edgeFade * fresnel`.  The webcam texture is an
abstract function `tex` of the UV. -/
noncomputable def shadeHit (mirrorHalfWidth mirrorHalfHeight imagePlaneDist : ℝ)
    (imageSizeX imageSizeY : ℝ) (tex : ℝ × ℝ → Vec3) (hitPos rd : Vec3)
    (segA segB : ℝ) : ShadeResult :=
  let N := computeNormal hitPos.y segA segB
  let reflDir := reflect3 rd N
  if reflDir.z ≥ 0 then ShadeResult.behindMirror ⟨0.03, 0.03, 0.05⟩
  else
    let tImg := (-imagePlaneDist - hitPos.z) / reflDir.z
    let imgHit : Vec3 := ⟨hitPos.x + reflDir.x * tImg, hitPos.y + reflDir.y * tImg,
      hitPos.z + reflDir.z * tImg⟩
    let u0 := imgHit.x / imageSizeX + 0.5
    let v0 := imgHit.y / imageSizeY + 0.5
    let u := 1 - u0
    let v := 1 - v0
    if u < 0 ∨ u > 1 ∨ v < 0 ∨ v > 1 then ShadeResult.outsideImage ⟨0.02, 0.02, 0.03⟩
    else
      let texColor := tex (u, v)
      let edgeX := |hitPos.x| / mirrorHalfWidth
      let edgeY := |hitPos.y| / mirrorHalfHeight
      let edgeFade := smoothstep 1 0.92 (max edgeX edgeY)
      let fresnel := 0.85 + 0.15 * (1 - |dot3 (normalize3 ⟨-rd.x, -rd.y, -rd.z⟩) N|) ^ 2
      ShadeResult.sampled
        ⟨texColor.x * edgeFade * fresnel, texColor.y * edgeFade * fresnel,
         texColor.z * edgeFade * fresnel⟩ (u, v)

/-! ## Theorems for claim C9 -/

/-- C9. Behind-mirror rejection: whenever the reflected ray direction has a
non-negative z-component, the shader outputs the fixed near-black
`(0.03, 0.03, 0.05)` fallback and never a sampled texture color. -/
theorem shadeHit_behind_mirror (mirrorHalfWidth mirrorHalfHeight imagePlaneDist
    imageSizeX imageSizeY : ℝ) (tex : ℝ × ℝ → Vec3) (hitPos rd : Vec3) (segA segB : ℝ)
    (h : (reflect3 rd (computeNormal hitPos.y segA segB)).z ≥ 0) :
    shadeHit mirrorHalfWidth mirrorHalfHeight imagePlaneDist imageSizeX imageSizeY
      tex hitPos rd segA segB = ShadeResult.behindMirror ⟨0.03, 0.03, 0.05⟩ ∧
    ∀ color uv, shadeHit mirrorHalfWidth mirrorHalfHeight imagePlaneDist imageSizeX
      imageSizeY tex hitPos rd segA segB ≠ ShadeResult.sampled color uv := by
  unfold shadeHit
  rw [if_pos h]
  exact ⟨rfl, fun color uv hcontra => ShadeResult.noConfusion hcontra⟩

/-- Witness for C9: flat-slope segment tilted by `segB = 4/3` (normal
`(0, 4/5, -3/5)`), central ray `(0,0,1)`: the reflected direction has
`z = 7/25 ≥ 0` and the shader outputs the behind-mirror fallback. -/
theorem shadeHit_behind_mirror_witness :
    (reflect3 ⟨0, 0, 1⟩ (computeNormal 1 0 (4/3))).z ≥ 0 ∧
    shadeHit 1 1 1 2 2 (fun _ => ⟨0, 0, 0⟩) ⟨0, 1, 3⟩ ⟨0, 0, 1⟩ 0 (4/3)
      = ShadeResult.behindMirror ⟨0.03, 0.03, 0.05⟩ := by
  have h : (reflect3 ⟨0, 0, 1⟩ (computeNormal 1 0 (4/3))).z ≥ 0 := by
    have h25 : Real.sqrt 25 = 5 := by
      rw [show (25:ℝ) = 5^2 by norm_num, Real.sqrt_sq (by norm_num)]
    have h9 : Real.sqrt 9 = 3 := by
      rw [show (9:ℝ) = 3^2 by norm_num, Real.sqrt_sq (by norm_num)]
    unfold reflect3 computeNormal normalize3 dot3
    norm_num [h25, h9]
  exact ⟨h, (shadeHit_behind_mirror 1 1 1 2 2 (fun _ => ⟨0, 0, 0⟩)
    ⟨0, 1, 3⟩ ⟨0, 0, 1⟩ 0 (4/3) h).1⟩

/-! ## Theorems for claim C10 -/

/-- Cauchy-Schwarz for the 3D dot product. -/
theorem dot3_sq_le (u v : Vec3) : dot3 u v ^ 2 ≤ dot3 u u * dot3 v v := by
  unfold dot3
  nlinarith [sq_nonneg (u.x * v.y - u.y * v.x), sq_nonneg (u.x * v.z - u.z * v.x),
    sq_nonneg (u.y * v.z - u.z * v.y)]

/-- A normalized nonzero vector is a unit vector. -/
theorem dot3_normalize_self (v : Vec3) (hv : 0 < dot3 v v) :
    dot3 (normalize3 v) (normalize3 v) = 1 := by
  unfold dot3 at hv
  unfold normalize3 dot3
  have hsq : Real.sqrt (v.x * v.x + v.y * v.y + v.z * v.z) *
      Real.sqrt (v.x * v.x + v.y * v.y + v.z * v.z)
      = v.x * v.x + v.y * v.y + v.z * v.z :=
    Real.mul_self_sqrt (le_of_lt hv)
  have hs : Real.sqrt (v.x * v.x + v.y * v.y + v.z * v.z) ≠ 0 := by
    intro h0
    rw [h0, mul_zero] at hsq
    linarith
  field_simp

/-- Dots of unit vectors lie in `[-1, 1]`. -/
theorem abs_dot3_le_one (u v : Vec3) (hu : dot3 u u = 1) (hv : dot3 v v = 1) :
    |dot3 u v| ≤ 1 := by
  have h := dot3_sq_le u v
  rw [hu, hv, mul_one] at h
  exact (sq_le_one_iff_abs_le_one _).mp h

/-- GLSL `smoothstep` always lands in `[0, 1]` (the parameter is clamped
and `t² (3 - 2t)` maps `[0,1]` into `[0,1]`). -/
theorem smoothstep_mem (e0 e1 x : ℝ) :
    0 ≤ smoothstep e0 e1 x ∧ smoothstep e0 e1 x ≤ 1 := by
  have key : ∀ t : ℝ, 0 ≤ t → t ≤ 1 →
      0 ≤ t * t * (3 - 2 * t) ∧ t * t * (3 - 2 * t) ≤ 1 := by
    intro t ht0 ht1
    constructor
    · nlinarith
    · nlinarith [sq_nonneg (1 - t), mul_nonneg ht0 ht0]
  unfold smoothstep clampR
  exact key _ (le_min (le_max_right _ 0) (by norm_num)) (min_le_right _ 1)

/-- C10. Shading only attenuates: whenever the shading tail samples the
webcam texture, the output color is the sampled color multiplied by
`edgeFade · fresnel` with `edgeFade ∈ [0,1]` (a smoothstep value) and
`fresnel ∈ [0.85, 1]`; with non-negative texture channels each output
channel is therefore at most the sampled channel. -/
theorem shadeHit_attenuates (mirrorHalfWidth mirrorHalfHeight imagePlaneDist
    imageSizeX imageSizeY : ℝ) (tex : ℝ × ℝ → Vec3) (hitPos rd : Vec3) (segA segB : ℝ)
    (hrd : 0 < dot3 rd rd)
    (htex : ∀ uv, 0 ≤ (tex uv).x ∧ 0 ≤ (tex uv).y ∧ 0 ≤ (tex uv).z) :
    ∀ color uv, shadeHit mirrorHalfWidth mirrorHalfHeight imagePlaneDist imageSizeX
        imageSizeY tex hitPos rd segA segB = ShadeResult.sampled color uv →
      ∃ edgeFade fresnel,
        0 ≤ edgeFade ∧ edgeFade ≤ 1 ∧ (0.85 : ℝ) ≤ fresnel ∧ fresnel ≤ 1 ∧
        color.x = (tex uv).x * edgeFade * fresnel ∧
        color.y = (tex uv).y * edgeFade * fresnel ∧
        color.z = (tex uv).z * edgeFade * fresnel ∧
        color.x ≤ (tex uv).x ∧ color.y ≤ (tex uv).y ∧ color.z ≤ (tex uv).z := by
  intro color uv h
  simp only [shadeHit] at h
  split_ifs at h with h1 h2
  -- unit normal at the hit
  have hbase : 0 < dot3 ⟨0, 2 * segA * hitPos.y + segB, -1⟩
      ⟨0, 2 * segA * hitPos.y + segB, -1⟩ := by
    show (0:ℝ) < 0 * 0 + (2 * segA * hitPos.y + segB) * (2 * segA * hitPos.y + segB)
      + (-1) * (-1)
    nlinarith [mul_self_nonneg (2 * segA * hitPos.y + segB)]
  have hN : dot3 (computeNormal hitPos.y segA segB) (computeNormal hitPos.y segA segB) = 1 :=
    dot3_normalize_self _ hbase
  -- unit view vector
  have hneg : 0 < dot3 ⟨-rd.x, -rd.y, -rd.z⟩ ⟨-rd.x, -rd.y, -rd.z⟩ := by
    unfold dot3 at hrd
    show (0:ℝ) < -rd.x * -rd.x + -rd.y * -rd.y + -rd.z * -rd.z
    nlinarith
  have hV : dot3 (normalize3 ⟨-rd.x, -rd.y, -rd.z⟩)
      (normalize3 ⟨-rd.x, -rd.y, -rd.z⟩) = 1 :=
    dot3_normalize_self _ hneg
  have habs : |dot3 (normalize3 ⟨-rd.x, -rd.y, -rd.z⟩)
      (computeNormal hitPos.y segA segB)| ≤ 1 :=
    abs_dot3_le_one _ _ hV hN
  have habs0 : 0 ≤ |dot3 (normalize3 ⟨-rd.x, -rd.y, -rd.z⟩)
      (computeNormal hitPos.y segA segB)| := abs_nonneg _
  obtain ⟨hef0, hef1⟩ := smoothstep_mem 1 0.92
    (max (|hitPos.x| / mirrorHalfWidth) (|hitPos.y| / mirrorHalfHeight))
  -- extract the constructor equality
  injection h with hc huv
  subst huv
  set ef := smoothstep 1 0.92 (max (|hitPos.x| / mirrorHalfWidth)
    (|hitPos.y| / mirrorHalfHeight)) with hefdef
  set dI := dot3 (normalize3 ⟨-rd.x, -rd.y, -rd.z⟩)
    (computeNormal hitPos.y segA segB) with hdIdef
  set fr := (0.85 : ℝ) + 0.15 * (1 - |dI|) ^ 2 with hfrdef
  have hfr0 : (0.85 : ℝ) ≤ fr := by
    rw [hfrdef]
    nlinarith [sq_nonneg (1 - |dI|)]
  have hfr1 : fr ≤ 1 := by
    rw [hfrdef]
    nlinarith [habs, habs0]
  have hmul : ∀ tc : ℝ, 0 ≤ tc → tc * ef * fr ≤ tc := by
    intro tc htc
    have hfrnn : (0 : ℝ) ≤ fr := le_trans (by norm_num) hfr0
    have h1 : ef * fr ≤ 1 := by
      have := mul_le_mul hef1 hfr1 hfrnn (by norm_num)
      linarith
    have h2 : (0 : ℝ) ≤ ef * fr := mul_nonneg hef0 hfrnn
    calc tc * ef * fr = tc * (ef * fr) := by ring
      _ ≤ tc * 1 := mul_le_mul_of_nonneg_left h1 htc
      _ = tc := mul_one tc
  refine ⟨ef, fr, hef0, hef1, hfr0, hfr1, ?_, ?_, ?_, ?_, ?_, ?_⟩
  · rw [← hc]
  · rw [← hc]
  · rw [← hc]
  · rw [← hc]
    exact hmul _ (htex _).1
  · rw [← hc]
    exact hmul _ (htex _).2.1
  · rw [← hc]
    exact hmul _ (htex _).2.2

/-- Witness for C10: flat mirror (`segA = segB = 0`), central ray
`(0,0,1)` hitting `(0,0,2)`, image plane at distance 1 and size 2×2, a
constant black texture: the shader samples UV `(0.5, 0.5)` and the output
channels satisfy the attenuation bounds. -/
theorem shadeHit_attenuates_witness :
    (0 : ℝ) < dot3 ⟨0, 0, 1⟩ ⟨0, 0, 1⟩ ∧
    shadeHit 1 1 1 2 2 (fun _ => ⟨0, 0, 0⟩) ⟨0, 0, 2⟩ ⟨0, 0, 1⟩ 0 0
      = ShadeResult.sampled ⟨0, 0, 0⟩ (0.5, 0.5) ∧
    ∃ edgeFade fresnel,
      0 ≤ edgeFade ∧ edgeFade ≤ 1 ∧ (0.85 : ℝ) ≤ fresnel ∧ fresnel ≤ 1 ∧
      (0 : ℝ) = 0 * edgeFade * fresnel ∧ (0 : ℝ) = 0 * edgeFade * fresnel ∧
      (0 : ℝ) = 0 * edgeFade * fresnel ∧
      (0 : ℝ) ≤ 0 ∧ (0 : ℝ) ≤ 0 ∧ (0 : ℝ) ≤ 0 := by
  have hdot : (0 : ℝ) < dot3 ⟨0, 0, 1⟩ ⟨0, 0, 1⟩ := by
    show (0 : ℝ) < 0 * 0 + 0 * 0 + 1 * 1
    norm_num
  have hrun : shadeHit 1 1 1 2 2 (fun _ => ⟨0, 0, 0⟩) ⟨0, 0, 2⟩ ⟨0, 0, 1⟩ 0 0
      = ShadeResult.sampled ⟨0, 0, 0⟩ (0.5, 0.5) := by
    simp only [shadeHit, computeNormal, normalize3, reflect3, dot3, smoothstep, clampR]
    norm_num [Real.sqrt_one, min_def, max_def]
  exact ⟨hdot, hrun,
    shadeHit_attenuates 1 1 1 2 2 (fun _ => ⟨0, 0, 0⟩) ⟨0, 0, 2⟩ ⟨0, 0, 1⟩ 0 0 hdot
      (fun _ => by norm_num) ⟨0, 0, 0⟩ (0.5, 0.5) hrun⟩
